import Mathlib

/-!
Shallow embedding of the game-logic core of `wheel_trainer.py` (class WheelGame).

Conventions of the embedding:
- Python strings are `List Char`; the phrase and the reveal mask are `List Char`
  where the mask uses the underscore character for a hidden cell, exactly as the
  source stores them (`self.revealed = ['_' if c.isalpha() else c ...]`).
- The Python `set` of guessed letters is a `List Char` used with set semantics
  (`List.insert` adds only when absent, membership is the only observation).
- Python floats (wheel angle and speed) are modelled as rationals; the float
  modulo for a nonnegative dividend is `pyMod` below, and Python `int(...)`
  truncation on a nonnegative value is integer floor followed by `Int.toNat`.
- Randomness (category choice, phrase choice, initial spin speed) is made
  explicit: each operation that draws a random value takes it as a parameter.
- Python scores are unbounded ints, so `score` is `Int`; wheel values are the
  fixed naturals of WHEEL_VALUES.
- Character classification uses Lean's ASCII `Char.isAlpha`/`Char.toUpper`,
  which agree with Python `str.isalpha`/`str.upper` on the ASCII phrases the
  program ships and persists.
-/

-- Wheel values (wheel_trainer.py line 25)
def WHEEL_VALUES : List ℕ := [500, 550, 600, 650, 700, 750, 800, 850, 900, 300, 400, 450]

-- VOWELS = set('AEIOU') (line 28)
def VOWELS : List Char := ['A', 'E', 'I', 'O', 'U']

-- VOWEL_COST = 250 (line 29)
def VOWEL_COST : ℤ := 250

/-- The mutable game state of class WheelGame (lines 42-59), restricted to the
fields the game logic reads or writes: puzzle, reveal mask, guessed letters,
wheel, score, turn phase flag and status message. -/
structure GameState where
  current_category : String
  current_puzzle : List Char
  revealed : List Char
  guessed_letters : List Char
  wheel_angle : ℚ
  wheel_spinning : Bool
  wheel_speed : ℚ
  current_value : ℕ
  score : ℤ
  can_guess : Bool
  message : String
deriving DecidableEq

/-- new_puzzle (lines 95-103). The random category and phrase picks are
parameters; the phrase is upper-cased, the mask hides exactly the alphabetic
positions, guessed letters are cleared, the wheel value is zeroed and the
guess permission revoked. The source does NOT touch wheel_angle,
wheel_spinning or wheel_speed here. -/
def new_puzzle (st : GameState) (cat : String) (phrase : String) : GameState :=
  let p := phrase.data.map Char.toUpper
  { st with
    current_category := cat
    current_puzzle := p
    revealed := p.map (fun c => if c.isAlpha then '_' else c)
    guessed_letters := []
    current_value := 0
    can_guess := false
    message := "" }

/-- spin_wheel (lines 105-110); the random initial speed is a parameter. -/
def spin_wheel (st : GameState) (speed : ℚ) : GameState :=
  if st.wheel_spinning = false ∧ st.can_guess = false then
    { st with wheel_spinning := true, wheel_speed := speed, message := "Spinning" }
  else st

/-- Python float modulo for our use sites: `a % b` with b > 0, giving a value
in the interval from 0 (inclusive) to b (exclusive). -/
def pyMod (a b : ℚ) : ℚ := a - b * (⌊a / b⌋ : ℚ)

/-- update_wheel (lines 112-125): advance the angle, decay the speed by 0.98,
and when the speed drops below 0.1 stop, compute the landed segment
`int((angle mod 360) / 360 * 12)` and look up its value. -/
def update_wheel (st : GameState) : GameState :=
  if st.wheel_spinning = true then
    let angle := st.wheel_angle + st.wheel_speed
    let speed := st.wheel_speed * (98 / 100)
    if speed < 1 / 10 then
      let normalized := pyMod angle 360
      let segment := (⌊normalized / 360 * 12⌋).toNat
      { st with
        wheel_angle := angle
        wheel_speed := speed
        wheel_spinning := false
        current_value := WHEEL_VALUES.getD segment 0
        can_guess := true
        message := "Landed" }
    else
      { st with wheel_angle := angle, wheel_speed := speed }
  else st

/-- buy_vowel (lines 434-447): pure query plus message update; the returned
Bool is the acceptance signal. Score is NOT deducted here (that happens in
guess_letter). -/
def buy_vowel (st : GameState) : GameState × Bool :=
  if st.score < VOWEL_COST then
    ({ st with message := "Need money" }, false)
  else if (VOWELS.filter (fun v => v ∈ st.current_puzzle ∧ v ∉ st.guessed_letters)).isEmpty then
    ({ st with message := "No vowels left" }, false)
  else
    ({ st with message := "Type a vowel" }, true)

/-- The reveal loop of guess_letter (lines 491-493):
`for i, c in enumerate(self.current_puzzle): if c == letter: self.revealed[i] = letter`. -/
def reveal_update (puzzle revealed : List Char) (L : Char) : List Char :=
  List.zipWith (fun c r => if c = L then L else r) puzzle revealed

/-- The tail of guess_letter after all rejection checks have passed
(lines 475-504): record the guess, and on a hit apply consonant scoring,
reveal the matches and, when nothing is hidden any more, award the 1000
bonus and start the next puzzle (the source calls new_puzzle itself, after a
3-second blocking wait that has no state effect); on a miss zero the wheel
value and revoke the guess permission. -/
def guess_core (st : GameState) (L : Char) (nextCat nextPhrase : String) : GameState :=
  let st1 := { st with guessed_letters := st.guessed_letters.insert L }
  if L ∈ st1.current_puzzle then
    let count := st1.current_puzzle.count L
    let st2 :=
      if L ∉ VOWELS then
        { st1 with
          score := st1.score + (st1.current_value : ℤ) * count
          message := "Yes"
          current_value := 0
          can_guess := false }
      else
        { st1 with message := "Yes found" }
    let st3 := { st2 with revealed := reveal_update st2.current_puzzle st2.revealed L }
    if '_' ∈ st3.revealed then st3
    else new_puzzle { st3 with score := st3.score + 1000, message := "SOLVED" } nextCat nextPhrase
  else
    { st1 with message := "Sorry no", current_value := 0, can_guess := false }

/-- guess_letter (lines 449-504). The early returns of the source become
nested conditionals; the category and phrase that new_puzzle would draw at
random on a solve are passed through as parameters. -/
def guess_letter (st : GameState) (letter : Char) (is_vowel_purchase : Bool)
    (nextCat nextPhrase : String) : GameState :=
  let L := letter.toUpper
  if L ∈ st.guessed_letters then
    { st with message := "Already guessed" }
  else if L.isAlpha = false then
    st
  else if L ∈ VOWELS then
    if is_vowel_purchase = false then
      { st with message := "Buy vowels with the V key" }
    else if st.score < VOWEL_COST then
      { st with message := "Need money" }
    else
      guess_core { st with score := st.score - VOWEL_COST } L nextCat nextPhrase
  else
    if st.can_guess = false then
      { st with message := "Spin the wheel first" }
    else
      guess_core st L nextCat nextPhrase

/-- Python split on a single space character: consecutive separators and
leading or trailing separators produce empty words, as str.split(sep) does. -/
def splitOnSpace : List Char → List (List Char)
  | [] => [[]]
  | c :: rest =>
    if c = ' ' then [] :: splitOnSpace rest
    else
      match splitOnSpace rest with
      | [] => [[c]]
      | w :: ws => (c :: w) :: ws

/-- Accumulator of the row-building loop of draw_puzzle (lines 189-218):
finished rows, the current row (phrase indices), the width of the current row
counted in half-cells (a letter is 2 half-cells, a separating space 1, so the
Python float count is exact), and char_index. -/
structure LayoutAcc where
  rows : List (List ℕ)
  cur : List ℕ
  cnt2 : ℕ
  ci : ℕ
deriving DecidableEq

/-- One iteration of `for word in words` in draw_puzzle (lines 195-215),
with maxPerRow in cells (the source uses 13). The Python test
`current_count + space_needed > max_per_row` with space_needed
= len(word) + 0.5 (the 0.5 present exactly when the row is nonempty, which
the conjunct already demands) is the half-cell test
`2*maxPerRow < cnt2 + (2*len(word) + 1)`. -/
def layoutWord (maxPerRow : ℕ) (acc : LayoutAcc) (word : List Char) : LayoutAcc :=
  let wl := word.length
  let acc1 :=
    if 0 < acc.cnt2 ∧ 2 * maxPerRow < acc.cnt2 + (2 * wl + 1) then
      { rows := acc.rows ++ [acc.cur], cur := [], cnt2 := 0, ci := acc.ci }
    else acc
  let acc2 :=
    if 0 < acc1.cnt2 then
      { acc1 with cur := acc1.cur ++ [acc1.ci], ci := acc1.ci + 1, cnt2 := acc1.cnt2 + 1 }
    else acc1
  { acc2 with
    cur := acc2.cur ++ (List.range wl).map (acc2.ci + ·)
    ci := acc2.ci + wl
    cnt2 := acc2.cnt2 + 2 * wl }

/-- The row-building part of draw_puzzle (lines 188-218): split the phrase on
spaces, pack the words with layoutWord, and append the trailing nonempty row.
Each row is the list of phrase indices whose characters that row displays. -/
def layout (phrase : List Char) (maxPerRow : ℕ) : List (List ℕ) :=
  let acc := (splitOnSpace phrase).foldl (layoutWord maxPerRow) ⟨[], [], 0, 0⟩
  if acc.cur = [] then acc.rows else acc.rows ++ [acc.cur]

/-- One engine operation; the random draws each operation consumes are stored
in the constructor. -/
inductive Op where
  | newPuzzle (cat phrase : String)
  | spin (speed : ℚ)
  | tick
  | buyVowel
  | guess (letter : Char) (purchase : Bool) (nextCat nextPhrase : String)

/-- Apply one operation to the state. -/
def stepOp (st : GameState) : Op → GameState
  | .newPuzzle c p => new_puzzle st c p
  | .spin s => spin_wheel st s
  | .tick => update_wheel st
  | .buyVowel => (buy_vowel st).1
  | .guess l b c p => guess_letter st l b c p

/-- Run a sequence of operations. -/
def runOps (st : GameState) (ops : List Op) : GameState := ops.foldl stepOp st

/-- A generic concrete state builder for witnesses: idle wheel, given puzzle,
mask, guessed set, wheel value, score and guess permission. -/
def mkState (puzzle revealed guessed : List Char) (value : ℕ) (score : ℤ)
    (canGuess : Bool) : GameState :=
  { current_category := "Test"
    current_puzzle := puzzle
    revealed := revealed
    guessed_letters := guessed
    wheel_angle := 0
    wheel_spinning := false
    wheel_speed := 0
    current_value := value
    score := score
    can_guess := canGuess
    message := "" }

/-! Concrete states used by witnesses and counterexamples. -/

def stCAT : GameState := mkState ['C', 'A', 'T'] ['_', '_', '_'] [] 500 0 true

def stCAT600 : GameState := mkState ['C', 'A', 'T'] ['_', '_', '_'] [] 600 300 true

def stBB : GameState := mkState ['B', 'B'] ['_', '_'] [] 500 0 true

def stB : GameState := mkState ['B'] ['_'] [] 500 0 true

def stCATsolved : GameState := mkState ['C', 'A', 'T'] ['C', '_', 'T'] ['C', 'T'] 0 300 false

def stGuessed : GameState := mkState ['C', 'A', 'T'] ['C', '_', '_'] ['C'] 500 100 true

def stSpinning : GameState :=
  { mkState ['A'] ['_'] [] 0 0 false with wheel_spinning := true, wheel_speed := 5 }

def stSpinStop : GameState :=
  { mkState ['A'] ['_'] [] 0 0 false with wheel_spinning := true, wheel_speed := 1 / 10 }

def phraseAABBCC : List Char := ['A', 'A', ' ', 'B', 'B', ' ', 'C', 'C']

/-! Helper lemmas. -/

theorem vowel_isAlpha {c : Char} (h : c ∈ VOWELS) : c.isAlpha = true := by
  fin_cases h <;> decide

theorem pyMod_nonneg (a : ℚ) : 0 ≤ pyMod a 360 := by
  have h := Int.floor_le (a / 360)
  unfold pyMod
  nlinarith

theorem pyMod_lt (a : ℚ) : pyMod a 360 < 360 := by
  have h := Int.lt_floor_add_one (a / 360)
  unfold pyMod
  nlinarith

theorem getD_mem_of_lt (l : List ℕ) (n : ℕ) (h : n < l.length) : l.getD n 0 ∈ l := by
  rw [List.getD_eq_getElem _ _ h]
  exact List.getElem_mem h

/-! Claim C8. -/

/-- C8: whenever update_wheel stops the wheel (the decayed speed falls below
the stop threshold 0.1), the computed segment index, the floor of
(angle mod 360) / (360/12), is a valid index into the 12-entry value table,
and the resolved wheel value is a member of WHEEL_VALUES. -/
theorem update_wheel_value_in_table (st : GameState)
    (hspin : st.wheel_spinning = true)
    (hstop : st.wheel_speed * (98 / 100) < 1 / 10) :
    (⌊pyMod (st.wheel_angle + st.wheel_speed) 360 / 360 * 12⌋).toNat < WHEEL_VALUES.length ∧
    (update_wheel st).current_value ∈ WHEEL_VALUES := by
  have h0 : 0 ≤ pyMod (st.wheel_angle + st.wheel_speed) 360 := pyMod_nonneg _
  have h1 : pyMod (st.wheel_angle + st.wheel_speed) 360 < 360 := pyMod_lt _
  have hlb : (0 : ℤ) ≤ ⌊pyMod (st.wheel_angle + st.wheel_speed) 360 / 360 * 12⌋ :=
    Int.floor_nonneg.mpr (by positivity)
  have hub : ⌊pyMod (st.wheel_angle + st.wheel_speed) 360 / 360 * 12⌋ < 12 := by
    apply Int.floor_lt.mpr
    push_cast
    nlinarith
  have hseg : (⌊pyMod (st.wheel_angle + st.wheel_speed) 360 / 360 * 12⌋).toNat <
      WHEEL_VALUES.length := by
    have : WHEEL_VALUES.length = 12 := by decide
    omega
  refine ⟨hseg, ?_⟩
  simp only [update_wheel, hspin, if_true, if_pos hstop]
  exact getD_mem_of_lt _ _ hseg

/-- C8 witness: a concrete spinning state one tick from stopping. -/
theorem update_wheel_value_in_table_witness :
    stSpinStop.wheel_spinning = true ∧
    stSpinStop.wheel_speed * (98 / 100) < 1 / 10 ∧
    ((⌊pyMod (stSpinStop.wheel_angle + stSpinStop.wheel_speed) 360 / 360 * 12⌋).toNat <
        WHEEL_VALUES.length ∧
      (update_wheel stSpinStop).current_value ∈ WHEEL_VALUES) :=
  ⟨rfl, by norm_num [stSpinStop, mkState],
    update_wheel_value_in_table stSpinStop rfl (by norm_num [stSpinStop, mkState])⟩

/-! Claim C7. -/

/-- C7 counterexample: new_puzzle called while the wheel is spinning leaves
the spinning flag true and the speed nonzero, contrary to the claim that the
wheel state is reset to idle with speed at rest. -/
theorem new_puzzle_wheel_idle_cex :
    stSpinning.wheel_spinning = true ∧
    (new_puzzle stSpinning "Cat" "AB").wheel_spinning = true ∧
    (new_puzzle stSpinning "Cat" "AB").wheel_speed = 5 :=
  ⟨rfl, rfl, rfl⟩

/-- C7 (amended): after new_puzzle the wheel value is 0, the reveal mask is
HIDDEN at exactly the alphabetic positions and LITERAL elsewhere, the guessed
set is empty and the turn phase is AWAITING_SPIN; but the spinning flag, the
speed and the angle are left exactly as they were, so a spin in progress
keeps going. -/
theorem new_puzzle_reset_state (st : GameState) (cat phrase : String) (i : ℕ) :
    (new_puzzle st cat phrase).current_value = 0 ∧
    (new_puzzle st cat phrase).guessed_letters = [] ∧
    (new_puzzle st cat phrase).can_guess = false ∧
    (new_puzzle st cat phrase).wheel_spinning = st.wheel_spinning ∧
    (new_puzzle st cat phrase).wheel_speed = st.wheel_speed ∧
    (new_puzzle st cat phrase).wheel_angle = st.wheel_angle ∧
    (new_puzzle st cat phrase).revealed.length = (new_puzzle st cat phrase).current_puzzle.length ∧
    (new_puzzle st cat phrase).revealed.get? i =
      ((new_puzzle st cat phrase).current_puzzle.get? i).map
        (fun ch => if ch.isAlpha then '_' else ch) := by
  refine ⟨rfl, rfl, rfl, rfl, rfl, rfl, by simp [new_puzzle], ?_⟩
  simp [new_puzzle, List.get?_map]

/-! Claim C5. -/

/-- C5: guessing a letter already in the guessed set changes nothing but the
status message, in every state, for every purchase-context flag. -/
theorem repeat_guess_no_mutation (st : GameState) (letter : Char) (b : Bool) (c p : String)
    (h : letter.toUpper ∈ st.guessed_letters) :
    (guess_letter st letter b c p).score = st.score ∧
    (guess_letter st letter b c p).revealed = st.revealed ∧
    (guess_letter st letter b c p).can_guess = st.can_guess ∧
    (guess_letter st letter b c p).current_value = st.current_value ∧
    (guess_letter st letter b c p).guessed_letters = st.guessed_letters ∧
    (guess_letter st letter b c p).current_puzzle = st.current_puzzle := by
  simp [guess_letter, h]

/-- C5 witness: repeating the guess C (typed lowercase) on a state that
already guessed C changes none of the tracked fields. -/
theorem repeat_guess_no_mutation_witness :
    'c'.toUpper ∈ stGuessed.guessed_letters ∧
    ((guess_letter stGuessed 'c' false "x" "Y").score = stGuessed.score ∧
     (guess_letter stGuessed 'c' false "x" "Y").revealed = stGuessed.revealed ∧
     (guess_letter stGuessed 'c' false "x" "Y").can_guess = stGuessed.can_guess ∧
     (guess_letter stGuessed 'c' false "x" "Y").current_value = stGuessed.current_value ∧
     (guess_letter stGuessed 'c' false "x" "Y").guessed_letters = stGuessed.guessed_letters ∧
     (guess_letter stGuessed 'c' false "x" "Y").current_puzzle = stGuessed.current_puzzle) :=
  ⟨by decide, repeat_guess_no_mutation stGuessed 'c' false "x" "Y" (by decide)⟩

/-! Claim C2. -/

/-- C2 code bug: on the phrase AA BB CC with maxCellsPerRow 2 (at least the
longest word length), the layout drops the letters of the last word from the
rows and splits the word BB (phrase indices 3 and 4) across the second and
third rows: the wrap branch of draw_puzzle skips the separating space without
advancing char_index, so every cell after a wrap shifts back by one. The
rows evaluate to [[0,1],[2,3],[4,5]] where index 2 and index 5 are spaces,
so the concatenated non-space letters are AABB, not AABBCC. -/
theorem layout_word_bug :
    (∀ w ∈ splitOnSpace phraseAABBCC, w.length ≤ 2) ∧
    layout phraseAABBCC 2 = [[0, 1], [2, 3], [4, 5]] ∧
    ((layout phraseAABBCC 2).flatten.map (fun i => phraseAABBCC.getD i ' ')).filter
        (fun ch => ch ≠ ' ') = ['A', 'A', 'B', 'B'] ∧
    phraseAABBCC.filter (fun ch => ch ≠ ' ') = ['A', 'A', 'B', 'B', 'C', 'C'] := by
  decide

/-! Path lemmas for guess_letter: which rejection checks a guess passes. -/

theorem guess_letter_consonant_path (st : GameState) (letter : Char) (b : Bool) (c p : String)
    (hng : letter.toUpper ∉ st.guessed_letters)
    (halpha : letter.toUpper.isAlpha = true)
    (hcons : letter.toUpper ∉ VOWELS)
    (hcg : st.can_guess = true) :
    guess_letter st letter b c p = guess_core st letter.toUpper c p := by
  simp [guess_letter, hng, halpha, hcons, hcg]

theorem guess_letter_vowel_path (st : GameState) (letter : Char) (c p : String)
    (hv : letter.toUpper ∈ VOWELS)
    (hng : letter.toUpper ∉ st.guessed_letters)
    (hsc : ¬ st.score < VOWEL_COST) :
    guess_letter st letter true c p =
      guess_core { st with score := st.score - VOWEL_COST } letter.toUpper c p := by
  simp [guess_letter, hng, vowel_isAlpha hv, hv, hsc]

/-! Claim C1. -/

/-- C1 counterexample: with phrase BB, wheel value 500 and score 0, guessing
the consonant B while a guess is permitted raises the score to 2000, not to
the claimed wheelValue times occurrence count (1000): this guess also
completes the puzzle, so the 1000 solve bonus lands in the same call. -/
theorem consonant_hit_exact_score_cex :
    stBB.can_guess = true ∧
    'B' ∉ stBB.guessed_letters ∧
    'B' ∈ stBB.current_puzzle ∧
    (guess_letter stBB 'B' false "c" "XY").score ≠
      stBB.score + (stBB.current_value : ℤ) * stBB.current_puzzle.count 'B' := by
  decide

/-- C1 (amended): a permitted, not-yet-guessed consonant guess that occurs in
the phrase increases the score by wheelValue times the occurrence count, plus
an additional 1000 exactly when the reveal completes the puzzle, and always
resets the wheel value to 0 and the turn phase to AWAITING_SPIN. -/
theorem consonant_hit_scoring (st : GameState) (letter : Char) (b : Bool) (c p : String)
    (hng : letter.toUpper ∉ st.guessed_letters)
    (halpha : letter.toUpper.isAlpha = true)
    (hcons : letter.toUpper ∉ VOWELS)
    (hcg : st.can_guess = true)
    (hin : letter.toUpper ∈ st.current_puzzle) :
    (guess_letter st letter b c p).score =
      st.score + (st.current_value : ℤ) * st.current_puzzle.count letter.toUpper +
        (if '_' ∈ reveal_update st.current_puzzle st.revealed letter.toUpper then 0 else 1000) ∧
    (guess_letter st letter b c p).current_value = 0 ∧
    (guess_letter st letter b c p).can_guess = false := by
  rw [guess_letter_consonant_path st letter b c p hng halpha hcons hcg]
  by_cases hmem : '_' ∈ reveal_update st.current_puzzle st.revealed letter.toUpper
  · simp [guess_core, hin, hcons, hmem]
  · simp [guess_core, hin, hcons, hmem, new_puzzle]

/-- C1 witness: guessing C on the phrase CAT with wheel value 500 from score 0
earns 500 and does not complete the puzzle. -/
theorem consonant_hit_scoring_witness :
    'C'.toUpper ∉ stCAT.guessed_letters ∧
    'C'.toUpper.isAlpha = true ∧
    'C'.toUpper ∉ VOWELS ∧
    stCAT.can_guess = true ∧
    'C'.toUpper ∈ stCAT.current_puzzle ∧
    ((guess_letter stCAT 'C' false "x" "Y").score =
        stCAT.score + (stCAT.current_value : ℤ) * stCAT.current_puzzle.count 'C'.toUpper +
          (if '_' ∈ reveal_update stCAT.current_puzzle stCAT.revealed 'C'.toUpper then 0
           else 1000) ∧
      (guess_letter stCAT 'C' false "x" "Y").current_value = 0 ∧
      (guess_letter stCAT 'C' false "x" "Y").can_guess = false) :=
  ⟨by decide, by decide, by decide, rfl, by decide,
    consonant_hit_scoring stCAT 'C' false "x" "Y" (by decide) (by decide) (by decide) rfl
      (by decide)⟩

/-! Claim C3. -/

/-- C3: a vowel guess accepted under purchase context (alphabetic vowel, not
yet guessed, score at least the cost) deducts exactly 250 at acceptance,
independently of whether the vowel occurs: on a miss the final score is
exactly score - 250, and on a hit it is score - 250 plus only the solve
bonus when the reveal completes the puzzle. -/
theorem vowel_purchase_deducts_cost (st : GameState) (letter : Char) (c p : String)
    (hv : letter.toUpper ∈ VOWELS)
    (hng : letter.toUpper ∉ st.guessed_letters)
    (hsc : ¬ st.score < VOWEL_COST) :
    (letter.toUpper ∉ st.current_puzzle →
      (guess_letter st letter true c p).score = st.score - VOWEL_COST) ∧
    (letter.toUpper ∈ st.current_puzzle →
      (guess_letter st letter true c p).score = st.score - VOWEL_COST +
        (if '_' ∈ reveal_update st.current_puzzle st.revealed letter.toUpper then 0
         else 1000)) := by
  rw [guess_letter_vowel_path st letter c p hv hng hsc]
  constructor
  · intro hmiss
    simp [guess_core, hmiss]
  · intro hin
    by_cases hmem : '_' ∈ reveal_update st.current_puzzle st.revealed letter.toUpper
    · simp [guess_core, hin, hv, hmem]
    · simp [guess_core, hin, hv, hmem, new_puzzle]

/-- C3 witness: buying the vowel E on the phrase CAT with score 300 costs 250
even though E is absent. -/
theorem vowel_purchase_deducts_cost_witness :
    'E'.toUpper ∈ VOWELS ∧
    'E'.toUpper ∉ stCAT600.guessed_letters ∧
    ¬ stCAT600.score < VOWEL_COST ∧
    (('E'.toUpper ∉ stCAT600.current_puzzle →
        (guess_letter stCAT600 'E' true "c" "P").score = stCAT600.score - VOWEL_COST) ∧
      ('E'.toUpper ∈ stCAT600.current_puzzle →
        (guess_letter stCAT600 'E' true "c" "P").score = stCAT600.score - VOWEL_COST +
          (if '_' ∈ reveal_update stCAT600.current_puzzle stCAT600.revealed 'E'.toUpper then 0
           else 1000))) :=
  ⟨by decide, by decide, by decide,
    vowel_purchase_deducts_cost stCAT600 'E' "c" "P" (by decide) (by decide) (by decide)⟩

/-! Claim C4. -/

/-- C4 counterexample: an accepted vowel purchase of E on the phrase CAT
(score 300, wheel value 600, guess permitted) misses, and guess_letter then
sets can_guess to false and the wheel value to 0 — the claim says a vowel
miss leaves the turn phase and wheel value unchanged. -/
theorem vowel_miss_untouched_cex :
    stCAT600.can_guess = true ∧
    stCAT600.current_value = 600 ∧
    'E' ∉ stCAT600.current_puzzle ∧
    (guess_letter stCAT600 'E' true "c" "P").can_guess = false ∧
    (guess_letter stCAT600 'E' true "c" "P").current_value = 0 := by
  decide

/-- C4 (amended): an accepted vowel guess that misses the phrase falls into
the same miss branch as a consonant: it resets the turn phase to
AWAITING_SPIN and the wheel value to 0 (and costs the 250, leaving the
reveal mask unchanged). -/
theorem vowel_miss_consumes_turn (st : GameState) (letter : Char) (c p : String)
    (hv : letter.toUpper ∈ VOWELS)
    (hng : letter.toUpper ∉ st.guessed_letters)
    (hsc : ¬ st.score < VOWEL_COST)
    (hmiss : letter.toUpper ∉ st.current_puzzle) :
    (guess_letter st letter true c p).can_guess = false ∧
    (guess_letter st letter true c p).current_value = 0 ∧
    (guess_letter st letter true c p).revealed = st.revealed ∧
    (guess_letter st letter true c p).score = st.score - VOWEL_COST := by
  rw [guess_letter_vowel_path st letter c p hv hng hsc]
  simp [guess_core, hmiss]

/-- C4 witness: the concrete vowel miss of E on CAT. -/
theorem vowel_miss_consumes_turn_witness :
    'E'.toUpper ∈ VOWELS ∧
    'E'.toUpper ∉ stCAT600.guessed_letters ∧
    ¬ stCAT600.score < VOWEL_COST ∧
    'E'.toUpper ∉ stCAT600.current_puzzle ∧
    ((guess_letter stCAT600 'E' true "c" "P").can_guess = false ∧
      (guess_letter stCAT600 'E' true "c" "P").current_value = 0 ∧
      (guess_letter stCAT600 'E' true "c" "P").revealed = stCAT600.revealed ∧
      (guess_letter stCAT600 'E' true "c" "P").score = stCAT600.score - VOWEL_COST) :=
  ⟨by decide, by decide, by decide, by decide,
    vowel_miss_consumes_turn stCAT600 'E' "c" "P" (by decide) (by decide) (by decide)
      (by decide)⟩

/-! Claim C9. -/

/-- C9 counterexample: a guess that reveals the last hidden cell does not
leave the solved state in place: with phrase B and a correct guess of B, the
engine itself starts the next puzzle inside the call, so afterwards the
current phrase is the new draw XY and its mask is hidden again, not the
fully revealed solved phrase. -/
theorem solved_state_replaced_cex :
    '_' ∉ reveal_update stB.current_puzzle stB.revealed 'B' ∧
    (guess_letter stB 'B' false "Next" "XY").current_puzzle ≠ stB.current_puzzle ∧
    '_' ∈ (guess_letter stB 'B' false "Next" "XY").revealed := by
  decide

/-- C9 (amended): when any accepted guess — a permitted consonant or a
purchased vowel — reveals the last hidden cell, guess_letter adds the 1000
solve bonus (on top of the consonant winnings, or of the vowel cost already
deducted) and then itself replaces the puzzle by running new_puzzle inside
the call (after a 3-second blocking wait in the source): at the end of the
call the engine holds the next category and phrase with a fresh mask and an
empty guessed set, not the solved round. -/
theorem solving_guess_starts_next_puzzle (st : GameState) (letter : Char) (b : Bool)
    (c p : String)
    (hng : letter.toUpper ∉ st.guessed_letters)
    (halpha : letter.toUpper.isAlpha = true)
    (hvgate : letter.toUpper ∈ VOWELS → b = true ∧ ¬ st.score < VOWEL_COST)
    (hcgate : letter.toUpper ∉ VOWELS → st.can_guess = true)
    (hin : letter.toUpper ∈ st.current_puzzle)
    (hsolve : '_' ∉ reveal_update st.current_puzzle st.revealed letter.toUpper) :
    (guess_letter st letter b c p).score =
      (if letter.toUpper ∈ VOWELS then st.score - VOWEL_COST
       else st.score + (st.current_value : ℤ) * st.current_puzzle.count letter.toUpper) +
        1000 ∧
    (guess_letter st letter b c p).current_category = c ∧
    (guess_letter st letter b c p).current_puzzle = p.data.map Char.toUpper ∧
    (guess_letter st letter b c p).revealed =
      (p.data.map Char.toUpper).map (fun ch => if ch.isAlpha then '_' else ch) ∧
    (guess_letter st letter b c p).guessed_letters = [] ∧
    (guess_letter st letter b c p).current_value = 0 ∧
    (guess_letter st letter b c p).can_guess = false := by
  by_cases hvow : letter.toUpper ∈ VOWELS
  · obtain ⟨hb, hsc⟩ := hvgate hvow
    subst hb
    rw [guess_letter_vowel_path st letter c p hvow hng hsc]
    simp [guess_core, hin, hvow, hsolve, new_puzzle]
  · rw [guess_letter_consonant_path st letter b c p hng halpha hvow (hcgate hvow)]
    simp [guess_core, hin, hvow, hsolve, new_puzzle]

/-- C9 witness: two concrete completions — buying the vowel A finishes the
phrase CAT whose C and T are already revealed (score 300, wheel idle), and
the permitted consonant guess B finishes the one-letter phrase B; both end
the call holding the next puzzle. -/
theorem solving_guess_starts_next_puzzle_witness :
    ('A'.toUpper ∉ stCATsolved.guessed_letters ∧
      'A'.toUpper.isAlpha = true ∧
      ('A'.toUpper ∈ VOWELS → true = true ∧ ¬ stCATsolved.score < VOWEL_COST) ∧
      ('A'.toUpper ∉ VOWELS → stCATsolved.can_guess = true) ∧
      'A'.toUpper ∈ stCATsolved.current_puzzle ∧
      '_' ∉ reveal_update stCATsolved.current_puzzle stCATsolved.revealed 'A'.toUpper ∧
      ((guess_letter stCATsolved 'A' true "Next" "XY").score =
          (if 'A'.toUpper ∈ VOWELS then stCATsolved.score - VOWEL_COST
           else stCATsolved.score +
              (stCATsolved.current_value : ℤ) * stCATsolved.current_puzzle.count 'A'.toUpper) +
            1000 ∧
        (guess_letter stCATsolved 'A' true "Next" "XY").current_category = "Next" ∧
        (guess_letter stCATsolved 'A' true "Next" "XY").current_puzzle =
          "XY".data.map Char.toUpper ∧
        (guess_letter stCATsolved 'A' true "Next" "XY").revealed =
          ("XY".data.map Char.toUpper).map (fun ch => if ch.isAlpha then '_' else ch) ∧
        (guess_letter stCATsolved 'A' true "Next" "XY").guessed_letters = [] ∧
        (guess_letter stCATsolved 'A' true "Next" "XY").current_value = 0 ∧
        (guess_letter stCATsolved 'A' true "Next" "XY").can_guess = false)) ∧
    ('B'.toUpper ∉ stB.guessed_letters ∧
      'B'.toUpper.isAlpha = true ∧
      ('B'.toUpper ∈ VOWELS → false = true ∧ ¬ stB.score < VOWEL_COST) ∧
      ('B'.toUpper ∉ VOWELS → stB.can_guess = true) ∧
      'B'.toUpper ∈ stB.current_puzzle ∧
      '_' ∉ reveal_update stB.current_puzzle stB.revealed 'B'.toUpper ∧
      ((guess_letter stB 'B' false "Next" "XY").score =
          (if 'B'.toUpper ∈ VOWELS then stB.score - VOWEL_COST
           else stB.score + (stB.current_value : ℤ) * stB.current_puzzle.count 'B'.toUpper) +
            1000 ∧
        (guess_letter stB 'B' false "Next" "XY").current_category = "Next" ∧
        (guess_letter stB 'B' false "Next" "XY").current_puzzle = "XY".data.map Char.toUpper ∧
        (guess_letter stB 'B' false "Next" "XY").revealed =
          ("XY".data.map Char.toUpper).map (fun ch => if ch.isAlpha then '_' else ch) ∧
        (guess_letter stB 'B' false "Next" "XY").guessed_letters = [] ∧
        (guess_letter stB 'B' false "Next" "XY").current_value = 0 ∧
        (guess_letter stB 'B' false "Next" "XY").can_guess = false)) :=
  ⟨⟨by decide, by decide, by decide, by decide, by decide, by decide,
      solving_guess_starts_next_puzzle stCATsolved 'A' true "Next" "XY" (by decide) (by decide)
        (by decide) (by decide) (by decide) (by decide)⟩,
    ⟨by decide, by decide, by decide, by decide, by decide, by decide,
      solving_guess_starts_next_puzzle stB 'B' false "Next" "XY" (by decide) (by decide)
        (by decide) (by decide) (by decide) (by decide)⟩⟩


/-! Claim C6. -/

theorem guess_core_score_lb (st : GameState) (L : Char) (c p : String) (h : 0 ≤ st.score) :
    0 ≤ (guess_core st L c p).score := by
  have hc : (0 : ℤ) ≤ (st.current_value : ℤ) * (st.current_puzzle.count L : ℤ) := by positivity
  by_cases hin : L ∈ st.current_puzzle
  · by_cases hcons : L ∈ VOWELS
    · simp [guess_core, hin, hcons, new_puzzle, apply_ite GameState.score]
      split
      · exact h
      · omega
    · simp [guess_core, hin, hcons, new_puzzle, apply_ite GameState.score]
      split
      · linarith
      · linarith
  · simpa [guess_core, hin] using h

theorem guess_letter_score_lb (st : GameState) (letter : Char) (b : Bool) (c p : String)
    (h : 0 ≤ st.score) : 0 ≤ (guess_letter st letter b c p).score := by
  simp only [guess_letter]
  split_ifs with h1 h2 h3 h4 h5 h6
  · exact h
  · exact h
  · exact h
  · exact h
  · refine guess_core_score_lb _ _ _ _ ?_
    show 0 ≤ st.score - VOWEL_COST
    unfold VOWEL_COST at h5 ⊢
    omega
  · exact h
  · exact guess_core_score_lb _ _ _ _ h

theorem stepOp_score_lb (st : GameState) (op : Op) (h : 0 ≤ st.score) :
    0 ≤ (stepOp st op).score := by
  cases op with
  | newPuzzle c p => simpa [stepOp, new_puzzle] using h
  | spin s =>
    simp only [stepOp, spin_wheel]
    split_ifs <;> exact h
  | tick =>
    simp only [stepOp, update_wheel]
    split_ifs <;> exact h
  | buyVowel =>
    simp only [stepOp, buy_vowel]
    split_ifs <;> exact h
  | guess l b c p => exact guess_letter_score_lb st l b c p h

/-- C6: starting from a nonnegative score, every sequence of newPuzzle, spin,
advanceWheel, buyVowel and guessLetter operations keeps the score
nonnegative; and with a score below the vowel cost, a vowel purchase is
rejected without touching the score (buy_vowel reports failure with the score
unchanged and a purchase-context vowel guess is refused before any
deduction), never clamped. -/
theorem score_never_negative (st st2 : GameState) (ops : List Op) (letter : Char) (b : Bool)
    (c p : String)
    (h0 : 0 ≤ st.score)
    (hlt : st2.score < VOWEL_COST)
    (hv : letter.toUpper ∈ VOWELS) :
    0 ≤ (runOps st ops).score ∧
    (buy_vowel st2).1.score = st2.score ∧
    (guess_letter st2 letter b c p).score = st2.score := by
  refine ⟨?_, ?_, ?_⟩
  · simp only [runOps]
    induction ops generalizing st with
    | nil => exact h0
    | cons op rest ih => exact ih _ (stepOp_score_lb st op h0)
  · simp only [buy_vowel]
    split_ifs <;> rfl
  · -- with hlt and hv in context every surviving branch is a pure rejection:
    -- the vowel gate accepts (hv), the affordability gate refuses (hlt)
    simp only [guess_letter]
    split_ifs <;> rfl

def opsDemo : List Op :=
  [Op.spin 20, Op.tick, Op.guess 'C' false "x" "Y", Op.buyVowel, Op.newPuzzle "x" "Z"]

/-- C6 witness: a concrete run from score 0 through a spin, a tick, a
consonant guess, a vowel-purchase query and a rejected vowel guess. -/
theorem score_never_negative_witness :
    (0 : ℤ) ≤ stCAT.score ∧
    stCAT.score < VOWEL_COST ∧
    'E'.toUpper ∈ VOWELS ∧
    (0 ≤ (runOps stCAT opsDemo).score ∧
      (buy_vowel stCAT).1.score = stCAT.score ∧
      (guess_letter stCAT 'E' true "c" "P").score = stCAT.score) :=
  ⟨by decide, by decide, by decide,
    score_never_negative stCAT stCAT opsDemo 'E' true "c" "P" (by decide) (by decide)
      (by decide)⟩

/-! Claim C10. -/

theorem reveal_update_length (pz r : List Char) (L : Char) :
    (reveal_update pz r L).length = min pz.length r.length := by
  simp [reveal_update]

theorem reveal_update_get? (pz r : List Char) (L : Char) (i : ℕ) :
    (reveal_update pz r L).get? i =
      ((pz.get? i).map (fun a x => if a = L then L else x)).bind fun g => (r.get? i).map g := by
  unfold reveal_update
  exact List.get?_zipWith' _ _ _ _

theorem guess_core_reveal_cases (st : GameState) (L : Char) (c p : String)
    (hns : L ∈ st.current_puzzle → '_' ∈ reveal_update st.current_puzzle st.revealed L) :
    (guess_core st L c p).current_puzzle = st.current_puzzle ∧
    ((guess_core st L c p).revealed = st.revealed ∨
      (guess_core st L c p).revealed = reveal_update st.current_puzzle st.revealed L) := by
  by_cases hin : L ∈ st.current_puzzle
  · have hmem := hns hin
    by_cases hcons : L ∈ VOWELS
    · simp [guess_core, hin, hcons, hmem]
    · simp [guess_core, hin, hcons, hmem]
  · simp [guess_core, hin]

theorem guess_letter_reveal_cases (st : GameState) (letter : Char) (b : Bool) (c p : String)
    (hns : letter.toUpper ∈ st.current_puzzle →
      '_' ∈ reveal_update st.current_puzzle st.revealed letter.toUpper) :
    (guess_letter st letter b c p).current_puzzle = st.current_puzzle ∧
    ((guess_letter st letter b c p).revealed = st.revealed ∨
      ((guess_letter st letter b c p).revealed =
          reveal_update st.current_puzzle st.revealed letter.toUpper ∧
        letter.toUpper.isAlpha = true)) := by
  simp only [guess_letter]
  split_ifs with h1 h2 h3 h4 h5 h6
  · exact ⟨rfl, Or.inl rfl⟩
  · exact ⟨rfl, Or.inl rfl⟩
  · exact ⟨rfl, Or.inl rfl⟩
  · exact ⟨rfl, Or.inl rfl⟩
  · have halpha : letter.toUpper.isAlpha = true := by simpa using h2
    obtain ⟨hp, hr⟩ :=
      guess_core_reveal_cases { st with score := st.score - VOWEL_COST } letter.toUpper c p hns
    exact ⟨hp, hr.elim Or.inl (fun he => Or.inr ⟨he, halpha⟩)⟩
  · exact ⟨rfl, Or.inl rfl⟩
  · have halpha : letter.toUpper.isAlpha = true := by simpa using h2
    obtain ⟨hp, hr⟩ := guess_core_reveal_cases st letter.toUpper c p hns
    exact ⟨hp, hr.elim Or.inl (fun he => Or.inr ⟨he, halpha⟩)⟩

/-- C10: within a round, operations that do not start a new puzzle keep the
reveal mask monotone: spin, advanceWheel and buyVowel change neither the
phrase nor the mask; a guess that does not complete the puzzle (some cell
stays hidden after its reveal) keeps the phrase, preserves the mask length
equal to the phrase length, never turns a revealed or literal cell back to
hidden, and changes a hidden cell only at a position whose phrase character
is the guessed letter. -/
theorem round_reveal_monotone (st : GameState) (s : ℚ) (letter : Char) (b : Bool)
    (c p : String) (i : ℕ)
    (hlen : st.revealed.length = st.current_puzzle.length)
    (hns : letter.toUpper ∈ st.current_puzzle →
      '_' ∈ reveal_update st.current_puzzle st.revealed letter.toUpper) :
    ((spin_wheel st s).revealed = st.revealed ∧
      (spin_wheel st s).current_puzzle = st.current_puzzle) ∧
    ((update_wheel st).revealed = st.revealed ∧
      (update_wheel st).current_puzzle = st.current_puzzle) ∧
    ((buy_vowel st).1.revealed = st.revealed ∧
      (buy_vowel st).1.current_puzzle = st.current_puzzle) ∧
    (guess_letter st letter b c p).current_puzzle = st.current_puzzle ∧
    (guess_letter st letter b c p).revealed.length = st.current_puzzle.length ∧
    (st.revealed.get? i ≠ some '_' →
      (guess_letter st letter b c p).revealed.get? i ≠ some '_') ∧
    (st.revealed.get? i = some '_' →
        (guess_letter st letter b c p).revealed.get? i ≠ st.revealed.get? i →
      st.current_puzzle.get? i = some letter.toUpper) := by
  obtain ⟨hp, hr⟩ := guess_letter_reveal_cases st letter b c p hns
  refine ⟨?_, ?_, ?_, hp, ?_, ?_, ?_⟩
  · simp only [spin_wheel]
    split_ifs <;> exact ⟨rfl, rfl⟩
  · simp only [update_wheel]
    split_ifs <;> exact ⟨rfl, rfl⟩
  · simp only [buy_vowel]
    split_ifs <;> exact ⟨rfl, rfl⟩
  · rcases hr with he | ⟨he, _⟩
    · rw [he, hlen]
    · rw [he, reveal_update_length, hlen]
      exact Nat.min_self _
  · intro hne
    rcases hr with he | ⟨he, halpha⟩
    · rw [he]
      exact hne
    · have hLne : letter.toUpper ≠ '_' := by
        intro e
        rw [e] at halpha
        exact absurd halpha (by decide)
      rw [he, reveal_update_get?]
      cases hpz : st.current_puzzle.get? i with
      | none => simp
      | some a =>
        cases hrv : st.revealed.get? i with
        | none => simp
        | some x =>
          have hx : x ≠ '_' := by
            intro e
            rw [hrv, e] at hne
            exact hne rfl
          intro hcontra
          have hval : (if a = letter.toUpper then letter.toUpper else x) = '_' := by
            simpa using hcontra
          by_cases hal : a = letter.toUpper
          · rw [if_pos hal] at hval
            exact hLne hval
          · rw [if_neg hal] at hval
            exact hx hval
  · intro hh hne
    rcases hr with he | ⟨he, _⟩
    · rw [he] at hne
      exact absurd rfl hne
    · rw [he, reveal_update_get?] at hne
      have hi : i < st.revealed.length := by
        by_contra hge
        rw [List.get?_eq_none.mpr (by omega)] at hh
        exact Option.noConfusion hh
      have hi2 : i < st.current_puzzle.length := by omega
      cases hpz : st.current_puzzle.get? i with
      | none =>
        rw [List.get?_eq_none] at hpz
        omega
      | some a =>
        rw [hpz, hh] at hne
        by_cases hal : a = letter.toUpper
        · rw [hal]
        · exact absurd (by simp [hal]) hne

/-- C10 witness: the non-solving guess of C on the phrase CAT, checked at
position 1. -/
theorem round_reveal_monotone_witness :
    stCAT.revealed.length = stCAT.current_puzzle.length ∧
    ('C'.toUpper ∈ stCAT.current_puzzle →
      '_' ∈ reveal_update stCAT.current_puzzle stCAT.revealed 'C'.toUpper) ∧
    (((spin_wheel stCAT 20).revealed = stCAT.revealed ∧
        (spin_wheel stCAT 20).current_puzzle = stCAT.current_puzzle) ∧
      ((update_wheel stCAT).revealed = stCAT.revealed ∧
        (update_wheel stCAT).current_puzzle = stCAT.current_puzzle) ∧
      ((buy_vowel stCAT).1.revealed = stCAT.revealed ∧
        (buy_vowel stCAT).1.current_puzzle = stCAT.current_puzzle) ∧
      (guess_letter stCAT 'C' false "x" "Y").current_puzzle = stCAT.current_puzzle ∧
      (guess_letter stCAT 'C' false "x" "Y").revealed.length = stCAT.current_puzzle.length ∧
      (stCAT.revealed.get? 1 ≠ some '_' →
        (guess_letter stCAT 'C' false "x" "Y").revealed.get? 1 ≠ some '_') ∧
      (stCAT.revealed.get? 1 = some '_' →
          (guess_letter stCAT 'C' false "x" "Y").revealed.get? 1 ≠ stCAT.revealed.get? 1 →
        stCAT.current_puzzle.get? 1 = some 'C'.toUpper)) :=
  ⟨by decide, by decide,
    round_reveal_monotone stCAT 20 'C' false "x" "Y" 1 (by decide) (by decide)⟩
